import Mathlib

/-!
Shallow embedding of the sub-repository permission engine from
`internal/authz/sub_repo_perms.go`.

The engine decides path-level read access: `Permissions` turns
(feature flag, user id, repo content, rule-set store) into a `Perms`
decision plus an optional error, and `ActorPermissions` wraps it with
actor classification (flag / authentication / internal bypass).

Go side effects are made explicit:
* the process-wide feature flag read by `subRepoPermsEnabled` is passed
  as an explicit boolean argument (the spec's design notes ask for
  exactly this modelling);
* the two store methods (`RepoSupported`, `GetByUser`) are fields of a
  `SubRepoPermissionsGetter` record of pure functions returning
  `Except`;
* the calls made to the store are collected in an explicit call trace so
  that "no store method is invoked" claims are statable;
* `(Perms, error)` return pairs become the `PermResult` record.

Loops that are not structurally recursive (glob matching, `path.Clean`)
take an explicit fuel argument so that every definition reduces inside
the kernel; the fuel passed by the wrappers strictly exceeds the number
of iterations the corresponding Go loop can perform, so it never runs
out.
-/

/-- Permission level. Modelled from the spec: the `Perms` type itself is
declared elsewhere in the repository; the spec describes it as the
enumeration `{None, Read}` and no other level is used by this engine. -/
inductive Perms where
  | None
  | Read
deriving DecidableEq

/-- Go errors as produced by this engine: `ErrUnauthenticated{}`,
`errors.New(msg)` and `errors.Wrap(inner, msg)`. -/
inductive GoError where
  | unauthenticated
  | simple (msg : String)
  | wrap (msg : String) (inner : GoError)
deriving DecidableEq

/-- `api.RepoName` is a string type. -/
abbrev RepoName := String

/-- `RepoContent` specifies data existing in a repo (currently a path). -/
structure RepoContent where
  Repo : RepoName
  Path : String
deriving DecidableEq

/-- Per-repo rule set. Modelled from the spec: the `SubRepoPermissions`
record is declared elsewhere in the repository; the spec describes it as
`{PathIncludes, PathExcludes}`, two ordered sequences of glob pattern
strings. -/
structure SubRepoPermissions where
  PathIncludes : List String
  PathExcludes : List String
deriving DecidableEq

/-- Modelled from the spec: the `actor` package is not part of the
provided sources. The spec's `ActorIdentity` is
`{UserID: integer, Authenticated: bool, Internal: bool}`; the source
reads the user id through `a.UID`. -/
structure Actor where
  UID : Int
  Authenticated : Bool
  Internal : Bool
deriving DecidableEq

/-- Modelled from the spec: authentication state of the actor. -/
def Actor.IsAuthenticated (a : Actor) : Bool :=
  a.Authenticated

/-- Modelled from the spec: whether the actor is a trusted internal one. -/
def Actor.IsInternal (a : Actor) : Bool :=
  a.Internal

/-- One call made to the rule-set store. -/
inductive StoreCall where
  | repoSupported (repo : RepoName)
  | getByUser (userID : Int)
deriving DecidableEq

/-- Result of one evaluation: the `(Perms, error)` pair returned by the
Go function together with the trace of store calls it performed. -/
structure PermResult where
  perms : Perms
  err : Option GoError
  calls : List StoreCall
deriving DecidableEq

/-! ## Glob patterns

Modelled from the spec: the engine compiles each stored rule with
`glob.Compile(rule, '/')` (third-party library, not part of the provided
sources) and the spec only fixes "`/`-delimited glob semantics" with
fallible compilation. The model covers the core of that language:
literal characters, backslash escapes, `?` (one non-separator
character), `*` (any run of non-separator characters), `**` (any run of
characters), matched against the whole subject. Character classes and
brace alternatives are not modelled. A pattern ending in a dangling
backslash fails to compile. -/

/-- One compiled glob token. -/
inductive GlobToken where
  | lit (c : Char)
  | one
  | star
  | superStar
deriving DecidableEq

/-- Modelled from the spec: glob pattern compiler over the pattern's
characters. -/
def globCompileAux : List Char → Except GoError (List GlobToken)
  | [] => Except.ok []
  | '*' :: '*' :: rest => (globCompileAux rest).map (GlobToken.superStar :: ·)
  | '*' :: rest => (globCompileAux rest).map (GlobToken.star :: ·)
  | '?' :: rest => (globCompileAux rest).map (GlobToken.one :: ·)
  | '\\' :: [] => Except.error (GoError.simple "unexpected end of pattern")
  | '\\' :: c :: rest => (globCompileAux rest).map (GlobToken.lit c :: ·)
  | c :: rest => (globCompileAux rest).map (GlobToken.lit c :: ·)

/-- Modelled from the spec: `glob.Compile(pattern, '/')`. -/
def globCompile (pattern : String) : Except GoError (List GlobToken) :=
  globCompileAux pattern.data

/-- Modelled from the spec: anchored glob matching with separator `sep`.
Each recursive call strictly decreases `tokens.length + input.length`,
so the fuel passed by `globMatchStr` never runs out. -/
def globMatch (sep : Char) : Nat → List GlobToken → List Char → Bool
  | 0, _, _ => false
  | _ + 1, [], [] => true
  | _ + 1, [], _ :: _ => false
  | f + 1, GlobToken.lit c :: ts, input =>
      match input with
      | [] => false
      | x :: xs => c = x && globMatch sep f ts xs
  | f + 1, GlobToken.one :: ts, input =>
      match input with
      | [] => false
      | x :: xs => x ≠ sep && globMatch sep f ts xs
  | f + 1, GlobToken.star :: ts, input =>
      globMatch sep f ts input ||
        (match input with
         | [] => false
         | x :: xs => x ≠ sep && globMatch sep f (GlobToken.star :: ts) xs)
  | f + 1, GlobToken.superStar :: ts, input =>
      globMatch sep f ts input ||
        (match input with
         | [] => false
         | _ :: xs => globMatch sep f (GlobToken.superStar :: ts) xs)

/-- `g.Match(s)` for a matcher compiled with separator `/`. -/
def globMatchStr (g : List GlobToken) (s : String) : Bool :=
  globMatch '/' (g.length + s.data.length + 1) g s.data

/-- Whether a stored pattern compiles. -/
def patternCompiles (p : String) : Bool :=
  match globCompile p with
  | Except.ok _ => true
  | Except.error _ => false

/-- Whether a stored pattern compiles and matches the subject. -/
def patternMatches (p subject : String) : Bool :=
  match globCompile p with
  | Except.ok m => globMatchStr m subject
  | Except.error _ => false

/-- The matcher-building loops of `Permissions`: compile each rule in
order, stopping at the first failure. -/
def compileMatchers : List String → Except GoError (List (List GlobToken))
  | [] => Except.ok []
  | r :: rest =>
      match globCompile r with
      | Except.error e => Except.error e
      | Except.ok g =>
          match compileMatchers rest with
          | Except.error e => Except.error e
          | Except.ok gs => Except.ok (g :: gs)

/-- Whether every rule in the list compiles. -/
def compileOk (rules : List String) : Bool :=
  match compileMatchers rules with
  | Except.ok _ => true
  | Except.error _ => false

/-! ## Lexical path cleaning

Modelled from the spec: the source calls the Go standard library's
`path.Join`, which concatenates its arguments with `/` and applies
`path.Clean`. The definitions below follow `path.Clean`'s lazybuf
algorithm: `out` is the output buffer, `dd` the index up to which `..`
elements may not backtrack, and segments are copied verbatim with `.`,
`..` and empty elements resolved. -/

/-- Whether a `/` must be written before the next copied segment. -/
def needSlash (rooted : Bool) (out : List Char) : Bool :=
  (rooted && out.length ≠ 1) || (!rooted && out.length ≠ 0)

/-- Backtracking step of `path.Clean` for a `..` element: drop the last
segment of the (reversed) output buffer, never retreating past `dd`. -/
def popLoopRev (dd : Nat) : Char → List Char → List Char
  | _, [] => []
  | dropped, c :: rest =>
      if dd < (c :: rest).length ∧ dropped ≠ '/' then popLoopRev dd c rest
      else c :: rest

/-- Drop the last segment (and its separator) from the output buffer. -/
def popSegment (dd : Nat) (out : List Char) : List Char :=
  match out.reverse with
  | [] => out
  | c :: rest => (popLoopRev dd c rest).reverse

/-- Main loop of `path.Clean`. Every recursive call consumes at least
one input character, so the fuel passed by `pathClean` never runs out. -/
def cleanLoop (rooted : Bool) : Nat → List Char → List Char → Nat → List Char
  | 0, _, out, _ => out
  | _ + 1, [], out, _ => out
  | f + 1, '/' :: r, out, dd => cleanLoop rooted f r out dd
  | _ + 1, '.' :: [], out, _ => out
  | f + 1, '.' :: '/' :: r, out, dd => cleanLoop rooted f r out dd
  | f + 1, '.' :: '.' :: r, out, dd =>
      if r = [] ∨ r.head? = some '/' then
        if dd < out.length then
          cleanLoop rooted f r (popSegment dd out) dd
        else if !rooted then
          let out2 := (if out.length > 0 then out ++ ['/'] else out) ++ ['.', '.']
          cleanLoop rooted f r out2 out2.length
        else
          cleanLoop rooted f r out dd
      else
        let seg := '.' :: '.' :: r.takeWhile (fun c => c ≠ '/')
        let out2 := (if needSlash rooted out then out ++ ['/'] else out) ++ seg
        cleanLoop rooted f (r.dropWhile (fun c => c ≠ '/')) out2 dd
  | f + 1, c :: r, out, dd =>
      let seg := c :: r.takeWhile (fun x => x ≠ '/')
      let out2 := (if needSlash rooted out then out ++ ['/'] else out) ++ seg
      cleanLoop rooted f (r.dropWhile (fun x => x ≠ '/')) out2 dd

/-- Go's `path.Clean`: lexically resolve `.`, `..` and repeated slashes. -/
def pathClean (p : String) : String :=
  match p.data with
  | [] => "."
  | c :: rest =>
      let rooted := c == '/'
      let input := if c == '/' then rest else c :: rest
      let out0 : List Char := if c == '/' then ['/'] else []
      let dd0 : Nat := if c == '/' then 1 else 0
      let out := cleanLoop rooted (input.length + 1) input out0 dd0
      match out with
      | [] => "."
      | _ => String.mk out

/-- Go's `path.Join` for two elements: skip empty elements, join with
`/`, then clean; all-empty input yields the empty string. -/
def pathJoin (a b : String) : String :=
  if a.length + b.length = 0 then ""
  else if a = "" then pathClean b
  else pathClean (a ++ "/" ++ b)

/-! ## The permission engine -/

/-- `SubRepoPermissionsGetter`: the rule-set store collaborator. The two
methods may fail; their behaviour is otherwise arbitrary. -/
structure SubRepoPermissionsGetter where
  GetByUser : Int → Except GoError (List (RepoName × SubRepoPermissions))
  RepoSupported : RepoName → Except GoError Bool

/-- `subRepoPermsClient`: concrete `SubRepoPermissionChecker`; the Go
field holds a possibly-nil interface value. -/
structure subRepoPermsClient where
  permissionsGetter : Option SubRepoPermissionsGetter

/-- `subRepoPermsEnabled()`: reads the process-wide flag cached from the
site configuration; the flag value is passed in explicitly. -/
def subRepoPermsEnabled (flag : Bool) : Bool :=
  flag

/-- `(*subRepoPermsClient).Permissions`: the permission evaluator. -/
def Permissions (enabled : Bool) (s : subRepoPermsClient) (userID : Int)
    (content : RepoContent) : PermResult :=
  if !subRepoPermsEnabled enabled then ⟨Perms.Read, none, []⟩
  else if userID = 0 then ⟨Perms.None, some GoError.unauthenticated, []⟩
  else
    match s.permissionsGetter with
    | none => ⟨Perms.None, some (GoError.simple "PermissionsGetter is nil"), []⟩
    | some g =>
        match g.RepoSupported content.Repo with
        | Except.error e =>
            ⟨Perms.None, some (GoError.wrap "checking for sub-repo permissions support" e),
              [StoreCall.repoSupported content.Repo]⟩
        | Except.ok false =>
            ⟨Perms.Read, none, [StoreCall.repoSupported content.Repo]⟩
        | Except.ok true =>
            match g.GetByUser userID with
            | Except.error e =>
                ⟨Perms.None, some (GoError.wrap "getting permissions" e),
                  [StoreCall.repoSupported content.Repo, StoreCall.getByUser userID]⟩
            | Except.ok srp =>
                match srp.lookup content.Repo with
                | none =>
                    ⟨Perms.None, none,
                      [StoreCall.repoSupported content.Repo, StoreCall.getByUser userID]⟩
                | some repoRules =>
                    match compileMatchers repoRules.PathIncludes with
                    | Except.error e =>
                        ⟨Perms.None, some (GoError.wrap "building include matcher" e),
                          [StoreCall.repoSupported content.Repo, StoreCall.getByUser userID]⟩
                    | Except.ok includeMatchers =>
                        match compileMatchers repoRules.PathExcludes with
                        | Except.error e =>
                            ⟨Perms.None, some (GoError.wrap "building exclude matcher" e),
                              [StoreCall.repoSupported content.Repo, StoreCall.getByUser userID]⟩
                        | Except.ok excludeMatchers =>
                            if excludeMatchers.any
                                (fun m => globMatchStr m (pathJoin content.Repo content.Path)) then
                              ⟨Perms.None, none,
                                [StoreCall.repoSupported content.Repo, StoreCall.getByUser userID]⟩
                            else if includeMatchers.any
                                (fun m => globMatchStr m (pathJoin content.Repo content.Path)) then
                              ⟨Perms.Read, none,
                                [StoreCall.repoSupported content.Repo, StoreCall.getByUser userID]⟩
                            else
                              ⟨Perms.None, none,
                                [StoreCall.repoSupported content.Repo, StoreCall.getByUser userID]⟩

/-- `ActorPermissions`: actor-level entry point around `Permissions`. -/
def ActorPermissions (enabled : Bool) (s : subRepoPermsClient) (a : Actor)
    (content : RepoContent) : PermResult :=
  if !subRepoPermsEnabled enabled then ⟨Perms.Read, none, []⟩
  else if !a.IsAuthenticated then ⟨Perms.None, some GoError.unauthenticated, []⟩
  else if a.IsInternal then ⟨Perms.Read, none, []⟩
  else Permissions enabled s a.UID content

/-! ## Concrete stores used by the examples -/

/-- Rule set of the spec's exclude-precedence example, verbatim. -/
def demoRules : SubRepoPermissions :=
  ⟨["**"], ["secret/**"]⟩

/-- Store mapping repo `r` to `demoRules` for every user, supporting
every repo. -/
def demoGetter : SubRepoPermissionsGetter :=
  ⟨fun _ => Except.ok [("r", demoRules)], fun _ => Except.ok true⟩

/-- Client over `demoGetter`. -/
def demoClient : subRepoPermsClient :=
  ⟨some demoGetter⟩

/-- The exclude-precedence rule set with the exclude pattern rooted at
the repo name, as the rules are authored in this engine. -/
def rootedRules : SubRepoPermissions :=
  ⟨["**"], ["r/secret/**"]⟩

/-- Store mapping repo `r` to `rootedRules` for every user. -/
def rootedGetter : SubRepoPermissionsGetter :=
  ⟨fun _ => Except.ok [("r", rootedRules)], fun _ => Except.ok true⟩

/-- Client over `rootedGetter`. -/
def rootedClient : subRepoPermsClient :=
  ⟨some rootedGetter⟩

/-- Store that supports no repo. -/
def unsupportedGetter : SubRepoPermissionsGetter :=
  ⟨fun _ => Except.ok [], fun _ => Except.ok false⟩

/-- Store whose rule map holds only a repo named `other`. -/
def otherRepoGetter : SubRepoPermissionsGetter :=
  ⟨fun _ => Except.ok [("other", rootedRules)], fun _ => Except.ok true⟩

/-- Rule set holding an exclude pattern that does not compile (a lone
backslash). -/
def badRules : SubRepoPermissions :=
  ⟨["**"], ["\\"]⟩

/-- Store mapping repo `r` to `badRules` for every user. -/
def badGetter : SubRepoPermissionsGetter :=
  ⟨fun _ => Except.ok [("r", badRules)], fun _ => Except.ok true⟩

/-! ## Theorems -/

/-- Rewriting the match subject: the decision depends on the content
only through its repo name and the joined subject. -/
theorem permissions_subject_congr (enabled : Bool) (s : subRepoPermsClient) (userID : Int)
    (c1 c2 : RepoContent) (hrepo : c1.Repo = c2.Repo)
    (hsub : pathJoin c1.Repo c1.Path = pathJoin c2.Repo c2.Path) :
    Permissions enabled s userID c1 = Permissions enabled s userID c2 := by
  simp only [Permissions]
  rw [hsub, hrepo]

/-- C2: with the feature flag disabled, `Permissions` (for every user id
and content) and `ActorPermissions` (for every actor and content) return
`(Read, nil)` with an empty store-call trace, whatever the store
behaves like. -/
theorem C2_flag_disabled_read_no_store_calls :
    ∀ (s : subRepoPermsClient) (userID : Int) (content : RepoContent) (a : Actor),
      Permissions false s userID content = ⟨Perms.Read, none, []⟩ ∧
      ActorPermissions false s a content = ⟨Perms.Read, none, []⟩ := by
  intro s userID content a
  exact ⟨rfl, rfl⟩

/-- C3 counterexample: an internal actor that is not authenticated (the
authentication check runs first) receives `(None, ErrUnauthenticated)`,
not `Read`, with the flag enabled. -/
theorem C3_counterexample :
    (⟨0, false, true⟩ : Actor).Internal = true ∧
    ActorPermissions true ⟨none⟩ ⟨0, false, true⟩ ⟨"r", "file.txt"⟩ =
      ⟨Perms.None, some GoError.unauthenticated, []⟩ ∧
    Perms.None ≠ Perms.Read := by
  decide

/-- C3 (amended): with the flag enabled, every internal actor that
passes the authentication check gets `(Read, nil)` from
`ActorPermissions` with no store call and no use of `Permissions`. -/
theorem C3_internal_authenticated_read (s : subRepoPermsClient) (a : Actor)
    (content : RepoContent) (hAuth : a.Authenticated = true) (hInt : a.Internal = true) :
    ActorPermissions true s a content = ⟨Perms.Read, none, []⟩ := by
  simp [ActorPermissions, subRepoPermsEnabled, Actor.IsAuthenticated, Actor.IsInternal,
    hAuth, hInt]

/-- Witness for C3's amended theorem at a concrete internal actor. -/
theorem C3_witness :
    (⟨7, true, true⟩ : Actor).Authenticated = true ∧
    (⟨7, true, true⟩ : Actor).Internal = true ∧
    ActorPermissions true ⟨none⟩ ⟨7, true, true⟩ ⟨"r", "file.txt"⟩ = ⟨Perms.Read, none, []⟩ :=
  ⟨rfl, rfl, C3_internal_authenticated_read ⟨none⟩ ⟨7, true, true⟩ ⟨"r", "file.txt"⟩ rfl rfl⟩

/-- C6: with the flag enabled, user id 0 yields
`(None, ErrUnauthenticated)` before the nil-getter check and with no
store call, for every client. -/
theorem C6_user_zero_unauthenticated :
    ∀ (s : subRepoPermsClient) (content : RepoContent),
      Permissions true s 0 content = ⟨Perms.None, some GoError.unauthenticated, []⟩ := by
  intro s content
  rfl

/-- C1 counterexample: with the spec's example rules
(includes `["**"]`, excludes `["secret/**"]`) on repo `r`, the subject
for path `secret/file.txt` is `r/secret/file.txt`, which the exclude
pattern does not match, so `Permissions` returns `Read`, not `None`. -/
theorem C1_counterexample :
    Permissions true demoClient 1 ⟨"r", "secret/file.txt"⟩ =
      ⟨Perms.Read, none, [StoreCall.repoSupported "r", StoreCall.getByUser 1]⟩ ∧
    Perms.Read ≠ Perms.None := by
  decide

/-- C1 (amended): with includes `["**"]` and the repo-rooted excludes
`["r/secret/**"]`, path `secret/file.txt` yields `None` and path
`public/file.txt` yields `Read`. -/
theorem C1_exclude_precedence_rooted :
    Permissions true rootedClient 1 ⟨"r", "secret/file.txt"⟩ =
      ⟨Perms.None, none, [StoreCall.repoSupported "r", StoreCall.getByUser 1]⟩ ∧
    Permissions true rootedClient 1 ⟨"r", "public/file.txt"⟩ =
      ⟨Perms.Read, none, [StoreCall.repoSupported "r", StoreCall.getByUser 1]⟩ := by
  decide

/-- C7: with the flag enabled and a configured store, an unsupported
repo yields `(Read, nil)` whatever rule sets the store holds, and
`GetByUser` is never called. -/
theorem C7_repo_unsupported_read (g : SubRepoPermissionsGetter) (userID : Int)
    (content : RepoContent) (hu : userID ≠ 0)
    (hs : g.RepoSupported content.Repo = Except.ok false) :
    Permissions true ⟨some g⟩ userID content =
      ⟨Perms.Read, none, [StoreCall.repoSupported content.Repo]⟩ := by
  simp [Permissions, subRepoPermsEnabled, hu, hs]

/-- Witness for C7 at a concrete store that supports no repo. -/
theorem C7_witness :
    (1 : Int) ≠ 0 ∧
    unsupportedGetter.RepoSupported "r" = Except.ok false ∧
    Permissions true ⟨some unsupportedGetter⟩ 1 ⟨"r", "x"⟩ =
      ⟨Perms.Read, none, [StoreCall.repoSupported "r"]⟩ :=
  ⟨by decide, rfl, C7_repo_unsupported_read unsupportedGetter 1 ⟨"r", "x"⟩ (by decide) rfl⟩

/-- C8: with the flag enabled, the repo supported and `GetByUser`
succeeding, a repo absent from the returned map yields `(None, nil)` —
a success, not an error. -/
theorem C8_repo_absent_none (g : SubRepoPermissionsGetter) (userID : Int)
    (content : RepoContent) (srp : List (RepoName × SubRepoPermissions))
    (hu : userID ≠ 0)
    (hs : g.RepoSupported content.Repo = Except.ok true)
    (hg : g.GetByUser userID = Except.ok srp)
    (hl : srp.lookup content.Repo = none) :
    Permissions true ⟨some g⟩ userID content =
      ⟨Perms.None, none, [StoreCall.repoSupported content.Repo, StoreCall.getByUser userID]⟩ := by
  simp [Permissions, subRepoPermsEnabled, hu, hs, hg, hl]

/-- Witness for C8 at a store whose map only holds repo `other`. -/
theorem C8_witness :
    (1 : Int) ≠ 0 ∧
    otherRepoGetter.RepoSupported "r" = Except.ok true ∧
    otherRepoGetter.GetByUser 1 = Except.ok [("other", rootedRules)] ∧
    List.lookup "r" [("other", rootedRules)] = none ∧
    Permissions true ⟨some otherRepoGetter⟩ 1 ⟨"r", "x"⟩ =
      ⟨Perms.None, none, [StoreCall.repoSupported "r", StoreCall.getByUser 1]⟩ :=
  ⟨by decide, rfl, rfl, by decide,
    C8_repo_absent_none otherRepoGetter 1 ⟨"r", "x"⟩ [("other", rootedRules)]
      (by decide) rfl rfl (by decide)⟩

/-- C10: the match subject is built with lexical path cleaning, so the
path `public/../secret/file.txt` in repo `r` produces the subject
`r/secret/file.txt` and receives the same decision as the path
`secret/file.txt`, whatever the flag, store and user. -/
theorem C10_lexical_cleaning :
    pathJoin "r" "public/../secret/file.txt" = "r/secret/file.txt" ∧
    ∀ (enabled : Bool) (s : subRepoPermsClient) (userID : Int),
      Permissions enabled s userID ⟨"r", "public/../secret/file.txt"⟩ =
        Permissions enabled s userID ⟨"r", "secret/file.txt"⟩ := by
  refine ⟨by decide, ?_⟩
  intro enabled s userID
  exact permissions_subject_congr enabled s userID ⟨"r", "public/../secret/file.txt"⟩
    ⟨"r", "secret/file.txt"⟩ rfl (by decide)

/-- A rule list accepted by `compileOk` has a compiled matcher list. -/
theorem compileOk_exists_ok (l : List String) (h : compileOk l = true) :
    ∃ ms, compileMatchers l = Except.ok ms := by
  unfold compileOk at h
  cases hc : compileMatchers l with
  | error e => rw [hc] at h; simp at h
  | ok ms => exact ⟨ms, rfl⟩

/-- A rule list rejected by `compileOk` produces a compile error. -/
theorem compileMatchers_error_of_not_ok (l : List String) (h : compileOk l = false) :
    ∃ e, compileMatchers l = Except.error e := by
  unfold compileOk at h
  cases hc : compileMatchers l with
  | error e => exact ⟨e, rfl⟩
  | ok ms => rw [hc] at h; simp at h

/-- `compileOk` succeeds exactly when every rule compiles. -/
theorem compileOk_eq_all (l : List String) : compileOk l = l.all patternCompiles := by
  induction l with
  | nil => rfl
  | cons r rest ih =>
      simp only [compileOk, compileMatchers]
      cases hg : globCompile r with
      | error e => simp [patternCompiles, hg]
      | ok g =>
          cases hrest : compileMatchers rest with
          | error e =>
              have h2 : compileOk rest = false := by unfold compileOk; rw [hrest]
              simp [patternCompiles, hg, List.all_cons, ← ih, h2]
          | ok gs =>
              have h2 : compileOk rest = true := by unfold compileOk; rw [hrest]
              simp [patternCompiles, hg, List.all_cons, ← ih, h2]

/-- A compiled matcher list matches the subject exactly when some rule
of the original list compiles to a matcher that does. -/
theorem compileMatchers_any_iff (s : String) (l : List String) :
    ∀ ms, compileMatchers l = Except.ok ms →
      ((ms.any fun m => globMatchStr m s) = true ↔ ∃ p ∈ l, patternMatches p s = true) := by
  induction l with
  | nil =>
      intro ms h
      simp only [compileMatchers] at h
      cases h
      simp
  | cons r rest ih =>
      intro ms h
      simp only [compileMatchers] at h
      cases hg : globCompile r with
      | error e => simp [hg] at h
      | ok g =>
          simp only [hg] at h
          cases hrest : compileMatchers rest with
          | error e => simp [hrest] at h
          | ok gs =>
              simp only [hrest] at h
              injection h with h
              subst h
              have hr : patternMatches r s = globMatchStr g s := by
                simp [patternMatches, hg]
              simp [List.any_cons, List.exists_mem_cons_iff, ih gs hrest, hr]

/-- C4: with the flag enabled, the store configured, the repo supported
and present in the user's rule map, and every rule compiling, a subject
matched by at least one exclude pattern yields `(None, nil)` — whatever
the include patterns say. -/
theorem C4_exclude_precedence (g : SubRepoPermissionsGetter) (userID : Int)
    (content : RepoContent) (srp : List (RepoName × SubRepoPermissions))
    (rules : SubRepoPermissions)
    (hu : userID ≠ 0)
    (hs : g.RepoSupported content.Repo = Except.ok true)
    (hg : g.GetByUser userID = Except.ok srp)
    (hl : srp.lookup content.Repo = some rules)
    (hci : compileOk rules.PathIncludes = true)
    (hce : compileOk rules.PathExcludes = true)
    (hex : ∃ p ∈ rules.PathExcludes,
        patternMatches p (pathJoin content.Repo content.Path) = true) :
    Permissions true ⟨some g⟩ userID content =
      ⟨Perms.None, none, [StoreCall.repoSupported content.Repo, StoreCall.getByUser userID]⟩ := by
  obtain ⟨msI, hmsI⟩ := compileOk_exists_ok _ hci
  obtain ⟨msE, hmsE⟩ := compileOk_exists_ok _ hce
  have hany : (msE.any fun m => globMatchStr m (pathJoin content.Repo content.Path)) = true :=
    (compileMatchers_any_iff _ _ msE hmsE).mpr hex
  simp [Permissions, subRepoPermsEnabled, hu, hs, hg, hl, hmsI, hmsE, hany]

/-- Witness for C4: repo `r`, includes `["**"]`, excludes
`["r/secret/**"]`; the include pattern matches the subject too, yet the
result is `None`. -/
theorem C4_witness :
    (∃ p ∈ rootedRules.PathExcludes,
        patternMatches p (pathJoin "r" "secret/file.txt") = true) ∧
    (∃ p ∈ rootedRules.PathIncludes,
        patternMatches p (pathJoin "r" "secret/file.txt") = true) ∧
    Permissions true ⟨some rootedGetter⟩ 1 ⟨"r", "secret/file.txt"⟩ =
      ⟨Perms.None, none, [StoreCall.repoSupported "r", StoreCall.getByUser 1]⟩ :=
  ⟨by decide, by decide,
    C4_exclude_precedence rootedGetter 1 ⟨"r", "secret/file.txt"⟩ [("r", rootedRules)]
      rootedRules (by decide) rfl rfl (by decide) (by decide) (by decide) (by decide)⟩

/-- C9: with the flag enabled and the rule set reached, an invalid
pattern anywhere in the includes or excludes makes `Permissions` return
`None` together with a wrapped error — never a bare allow or deny. -/
theorem C9_invalid_pattern_error (g : SubRepoPermissionsGetter) (userID : Int)
    (content : RepoContent) (srp : List (RepoName × SubRepoPermissions))
    (rules : SubRepoPermissions)
    (hu : userID ≠ 0)
    (hs : g.RepoSupported content.Repo = Except.ok true)
    (hg : g.GetByUser userID = Except.ok srp)
    (hl : srp.lookup content.Repo = some rules)
    (hbad : ∃ p ∈ rules.PathIncludes ++ rules.PathExcludes, patternCompiles p = false) :
    (Permissions true ⟨some g⟩ userID content).perms = Perms.None ∧
    ∃ msg e, (Permissions true ⟨some g⟩ userID content).err = some (GoError.wrap msg e) := by
  obtain ⟨p, hp, hpc⟩ := hbad
  by_cases hI : compileOk rules.PathIncludes = true
  · obtain ⟨msI, hmsI⟩ := compileOk_exists_ok _ hI
    have hallI : ∀ q ∈ rules.PathIncludes, patternCompiles q = true := by
      rw [compileOk_eq_all] at hI
      exact List.all_eq_true.mp hI
    have hpE : p ∈ rules.PathExcludes := by
      rcases List.mem_append.mp hp with h1 | h2
      · rw [hallI p h1] at hpc; cases hpc
      · exact h2
    have hEfalse : compileOk rules.PathExcludes = false := by
      rw [compileOk_eq_all]
      cases hb : rules.PathExcludes.all patternCompiles
      · rfl
      · rw [List.all_eq_true.mp hb p hpE] at hpc
        cases hpc
    obtain ⟨e, he⟩ := compileMatchers_error_of_not_ok _ hEfalse
    refine ⟨?_, "building exclude matcher", e, ?_⟩
    · simp [Permissions, subRepoPermsEnabled, hu, hs, hg, hl, hmsI, he]
    · simp [Permissions, subRepoPermsEnabled, hu, hs, hg, hl, hmsI, he]
  · have hIfalse : compileOk rules.PathIncludes = false := by
      cases hb : compileOk rules.PathIncludes
      · rfl
      · exact absurd hb hI
    obtain ⟨e, he⟩ := compileMatchers_error_of_not_ok _ hIfalse
    refine ⟨?_, "building include matcher", e, ?_⟩
    · simp [Permissions, subRepoPermsEnabled, hu, hs, hg, hl, he]
    · simp [Permissions, subRepoPermsEnabled, hu, hs, hg, hl, he]

/-- Witness for C9 at a store whose exclude list holds a pattern that
does not compile. -/
theorem C9_witness :
    (∃ p ∈ badRules.PathIncludes ++ badRules.PathExcludes, patternCompiles p = false) ∧
    (Permissions true ⟨some badGetter⟩ 1 ⟨"r", "x"⟩).perms = Perms.None ∧
    (∃ msg e, (Permissions true ⟨some badGetter⟩ 1 ⟨"r", "x"⟩).err =
        some (GoError.wrap msg e)) :=
  ⟨by decide,
    C9_invalid_pattern_error badGetter 1 ⟨"r", "x"⟩ [("r", badRules)] badRules
      (by decide) rfl rfl (by decide) (by decide)⟩

/-- C5: `Read` only comes from a grant path. `Permissions` returns
`Read` only when the flag is disabled, or the repo is unsupported, or
some include pattern matches the subject while no exclude pattern does;
`ActorPermissions` additionally returns `Read` only through the
internal-actor bypass or by delegating to `Permissions`. -/
theorem C5_read_only_from_grant_paths :
    (∀ (enabled : Bool) (s : subRepoPermsClient) (userID : Int) (content : RepoContent),
      (Permissions enabled s userID content).perms = Perms.Read →
        subRepoPermsEnabled enabled = false
        ∨ (∃ g, s.permissionsGetter = some g
            ∧ g.RepoSupported content.Repo = Except.ok false)
        ∨ (∃ g srp rules, s.permissionsGetter = some g
            ∧ g.RepoSupported content.Repo = Except.ok true
            ∧ g.GetByUser userID = Except.ok srp
            ∧ srp.lookup content.Repo = some rules
            ∧ (∃ p ∈ rules.PathIncludes,
                patternMatches p (pathJoin content.Repo content.Path) = true)
            ∧ ¬ (∃ p ∈ rules.PathExcludes,
                patternMatches p (pathJoin content.Repo content.Path) = true))) ∧
    (∀ (enabled : Bool) (s : subRepoPermsClient) (a : Actor) (content : RepoContent),
      (ActorPermissions enabled s a content).perms = Perms.Read →
        subRepoPermsEnabled enabled = false
        ∨ (a.IsAuthenticated = true ∧ a.IsInternal = true)
        ∨ (Permissions enabled s a.UID content).perms = Perms.Read) := by
  constructor
  · intro enabled s userID content h
    cases enabled with
    | false => exact Or.inl rfl
    | true =>
      right
      by_cases hu : userID = 0
      · simp [Permissions, subRepoPermsEnabled, hu] at h
      · cases hgetter : s.permissionsGetter with
        | none => simp [Permissions, subRepoPermsEnabled, hu, hgetter] at h
        | some g =>
          cases hrs : g.RepoSupported content.Repo with
          | error e => simp [Permissions, subRepoPermsEnabled, hu, hgetter, hrs] at h
          | ok b =>
            cases b with
            | false => exact Or.inl ⟨g, rfl, hrs⟩
            | true =>
              right
              cases hgb : g.GetByUser userID with
              | error e =>
                  simp [Permissions, subRepoPermsEnabled, hu, hgetter, hrs, hgb] at h
              | ok srp =>
                cases hlk : srp.lookup content.Repo with
                | none =>
                    simp [Permissions, subRepoPermsEnabled, hu, hgetter, hrs, hgb, hlk] at h
                | some rules =>
                  cases hci : compileMatchers rules.PathIncludes with
                  | error e =>
                      simp [Permissions, subRepoPermsEnabled, hu, hgetter, hrs, hgb,
                        hlk, hci] at h
                  | ok msI =>
                    cases hce : compileMatchers rules.PathExcludes with
                    | error e =>
                        simp [Permissions, subRepoPermsEnabled, hu, hgetter, hrs, hgb,
                          hlk, hci, hce] at h
                    | ok msE =>
                      by_cases hex : (msE.any fun m =>
                          globMatchStr m (pathJoin content.Repo content.Path)) = true
                      · simp [Permissions, subRepoPermsEnabled, hu, hgetter, hrs, hgb,
                          hlk, hci, hce, hex] at h
                      · by_cases hin : (msI.any fun m =>
                            globMatchStr m (pathJoin content.Repo content.Path)) = true
                        · exact ⟨g, srp, rules, rfl, hrs, hgb, hlk,
                            (compileMatchers_any_iff _ _ msI hci).mp hin,
                            fun hc => hex ((compileMatchers_any_iff _ _ msE hce).mpr hc)⟩
                        · simp [Permissions, subRepoPermsEnabled, hu, hgetter, hrs, hgb,
                            hlk, hci, hce, hex, hin] at h
  · intro enabled s a content h
    cases enabled with
    | false => exact Or.inl rfl
    | true =>
      by_cases hauth : a.IsAuthenticated = true
      · by_cases hint : a.IsInternal = true
        · exact Or.inr (Or.inl ⟨hauth, hint⟩)
        · refine Or.inr (Or.inr ?_)
          have heq : ActorPermissions true s a content = Permissions true s a.UID content := by
            simp [ActorPermissions, subRepoPermsEnabled, hauth, hint]
          rw [heq] at h
          exact h
      · simp [ActorPermissions, subRepoPermsEnabled, hauth] at h

/-- Witness for C5 at the disabled-flag grant path. -/
theorem C5_witness :
    subRepoPermsEnabled false = false
    ∨ (∃ g, (subRepoPermsClient.mk none).permissionsGetter = some g
        ∧ g.RepoSupported "r" = Except.ok false)
    ∨ (∃ g srp rules, (subRepoPermsClient.mk none).permissionsGetter = some g
        ∧ g.RepoSupported "r" = Except.ok true
        ∧ g.GetByUser 1 = Except.ok srp
        ∧ srp.lookup "r" = some rules
        ∧ (∃ p ∈ rules.PathIncludes, patternMatches p (pathJoin "r" "x") = true)
        ∧ ¬ (∃ p ∈ rules.PathExcludes, patternMatches p (pathJoin "r" "x") = true)) :=
  C5_read_only_from_grant_paths.1 false ⟨none⟩ 1 ⟨"r", "x"⟩ (by decide)
